import Mathlib

/-
Verification of the serverless registry proxy (main.go).

The pure rewriting logic of the proxy is embedded shallowly over lists of
characters: header values, URL components and query parameters become
List Char, and each Go function that the claims mention becomes a Lean
function translated from its source.  Go regular-expression operations on
the two patterns of main.go (the anchored path pattern and the lazy realm
pattern) are modelled by explicit scanners with the same matching
semantics: leftmost match, lazy capture up to the first closing quote, a
dot that does not match a newline, and replacement of every
non-overlapping match.
-/

/-- Literal part of the Go pattern realm="(.*?)" that precedes the capture
group, i.e. the seven characters realm=" (main.go line 41). -/
def realmLit : List Char := "realm=\"".data

/-- Lazy capture of the Go pattern realm="(.*?)": starting right after the
literal realm=", consume characters up to the first double quote.  A
newline aborts the match (the Go dot does not match a newline), and so
does the end of the input.  Returns the captured content and the
remainder after the closing quote. -/
def scanClose : List Char → Option (List Char × List Char)
  | [] => none
  | c :: cs =>
    if c = '"' then some ([], cs)
    else if c = '\n' then none
    else (scanClose cs).map (fun pr => (c :: pr.1, pr.2))

/-- Leftmost match of the Go pattern realm="(.*?)" in a list of
characters: returns the part before the match, the captured group, and
the remainder after the match, or none when the pattern does not match
anywhere (as used by FindStringSubmatch and ReplaceAllString on the
realm pattern of main.go line 41). -/
def findRealm : List Char → Option (List Char × List Char × List Char)
  | [] => none
  | c :: cs =>
    if realmLit.isPrefixOf (c :: cs) then
      match scanClose (List.drop 7 (c :: cs)) with
      | some (cnt, rest) => some ([], cnt, rest)
      | none => (findRealm cs).map (fun pr => (c :: pr.1, pr.2.1, pr.2.2))
    else (findRealm cs).map (fun pr => (c :: pr.1, pr.2.1, pr.2.2))

/-- Fuelled worker for realm.ReplaceAllString: repeatedly replace the
leftmost match of realm="(.*?)" with realm="repl", continuing after each
match.  The fuel only bounds the number of matches; it is always called
with fuel at least the length of the input, which suffices because every
match consumes at least one character. -/
def replAux (repl : List Char) : Nat → List Char → List Char
  | 0, s => s
  | fuel + 1, s =>
    match findRealm s with
    | none => s
    | some (p, _, rest) => p ++ realmLit ++ repl ++ '"' :: replAux repl fuel rest

/-- Model of realm.ReplaceAllString from main.go line 257: every
non-overlapping match of realm="(.*?)" in s is replaced by the text
realm="repl".  The replacement text is inserted literally; main.go builds
it with Sprintf, so the model is faithful whenever the inserted host
contains no dollar character (Go would expand a dollar in the template). -/
def replaceRealmAll (repl s : List Char) : List Char := replAux repl s.length s

/-- Model of updateTokenEndpoint (main.go lines 251-258): an empty
www-authenticate header (Go returns "" for an absent header) is left
alone; otherwise every realm="..." group in it is rewritten to the
proxy's own token endpoint https://host/_token. -/
def updateTokenEndpoint (host wwwAuth : List Char) : List Char :=
  if wwwAuth = [] then wwwAuth
  else replaceRealmAll ("https://".data ++ host ++ "/_token".data) wwwAuth

/-- Model of discoverTokenService (main.go lines 124-139) applied to the
www-authenticate header of the upstream GET /v2/ response (the header is
[] when absent, as Go's Header.Get returns "").  none models the error
returns; some gives the capture of the first realm="..." group. -/
def discoverTokenService (wwwAuth : List Char) : Option (List Char) :=
  if wwwAuth = [] then none
  else
    match findRealm wwwAuth with
    | none => none
    | some (_, cnt, _) => some cnt

/-- Model of strings.Replace(s, old, new, 1) (main.go line 164) for a
non-empty old: the first occurrence of old in s, if any, is replaced by
new; the rest of s is kept. -/
def replaceFirst (old new s : List Char) : List Char :=
  match s with
  | [] => []
  | c :: cs =>
    if old.isPrefixOf (c :: cs) then new ++ List.drop old.length (c :: cs)
    else c :: replaceFirst old new cs

/-- Registry configuration (main.go lines 45-48). -/
structure RegistryConfig where
  host : List Char
  repoPrefix : List Char
deriving DecidableEq

/-- Parts of an inbound registry request that rewriteRegistryV2URL reads
or writes: URL scheme, URL host, URL path, raw query, and the Host
header (req.Host). -/
structure RegRequest where
  scheme : List Char
  urlHost : List Char
  path : List Char
  query : List Char
  hostHeader : List Char
deriving DecidableEq

/-- Model of the anchored rewrite re.ReplaceAllString(path, "/v2/" ++
repoPrefix ++ "/") with re = ^/v2/ (main.go lines 40 and 211): the
pattern is anchored at the start, so at most the leading occurrence is
replaced.  The replacement text is inserted literally, which is faithful
whenever repoPrefix contains no dollar character. -/
def replaceV2Anchored ( repoPrefix path : List Char) : List Char :=
  if "/v2/".data.isPrefixOf path then "/v2/".data ++ repoPrefix ++ "/".data ++ List.drop 4 path
  else path

/-- Model of the director returned by rewriteRegistryV2URL (main.go lines
204-215): set the Host header, the scheme and the URL host to the
configured upstream, and rewrite the path unless it is exactly /v2/. -/
def rewriteRegistryV2URL (c : RegistryConfig) (r : RegRequest) : RegRequest :=
  let r1 : RegRequest :=
    { r with hostHeader := c.host, scheme := "https".data, urlHost := c.host }
  if r1.path = "/v2/".data then r1
  else { r1 with path := replaceV2Anchored c.repoPrefix r1.path }

/-- Pre-parsed form of the discovered token endpoint URL, as produced by
url.Parse(tokenEndpoint) in main.go line 166: scheme, host and path. -/
structure EndpointUrl where
  scheme : List Char
  host : List Char
  path : List Char
deriving DecidableEq

/-- Parts of a token-exchange request that the token proxy director reads
or writes.  The query is the parsed form of the raw query, as url.Values
yields it: key and value pairs in order of appearance. -/
structure TokenRequest where
  scheme : List Char
  urlHost : List Char
  path : List Char
  query : List (List Char × List Char)
  hostHeader : List Char
deriving DecidableEq

/-- Model of url.Values.Get(k): the value of the first pair whose key is
k, and the empty string when the key is absent. -/
def queryGet (k : List Char) (q : List (List Char × List Char)) : List Char :=
  match q.find? (fun p => decide (p.1 = k)) with
  | some p => p.2
  | none => []

/-- Model of url.Values.Set(k, v) followed by Encode (main.go lines
165-167): the key k is left associated with the single value v, and the
other keys keep their values.  Go's Encode orders keys alphabetically;
the model keeps an association list instead, which is faithful for every
per-key observation. -/
def querySet (k v : List Char) (q : List (List Char × List Char)) :
    List (List Char × List Char) :=
  q.filter (fun p => decide (p.1 ≠ k)) ++ [(k, v)]

/-- Model of the Director of tokenProxyHandler (main.go lines 154-173):
when the scope query parameter is empty or absent the director returns
with the request untouched; otherwise it rewrites the first occurrence of
repository: in the scope, re-encodes the query, and points the request
URL and Host header at the discovered token endpoint. -/
def tokenProxyDirector (te : EndpointUrl) ( repoPrefix : List Char)
    (r : TokenRequest) : TokenRequest :=
  let scope := queryGet "scope".data r.query
  if scope = [] then r
  else
    let newScope :=
      replaceFirst "repository:".data ("repository:".data ++ repoPrefix ++ "/".data) scope
    { scheme := te.scheme, urlHost := te.host, path := te.path,
      query := querySet "scope".data newScope r.query, hostHeader := te.host }

/-- Request headers that registryRoundtripper.RoundTrip reads or writes.
A field holds the header value, [] standing for an absent header exactly
as Go's Header.Get returns "" for one. -/
structure ReqHeaders where
  authorization : List Char
  userAgent : List Char
  accept : List Char
deriving DecidableEq

/-- Model of the request mutations of registryRoundtripper.RoundTrip
(main.go lines 221-234): set Authorization to the authenticator's current
value when an authenticator is configured, decorate a non-empty
User-Agent, and force Accept. -/
def registryRoundTripPrepare (auth : Option (List Char)) (origHost : List Char)
    (h : ReqHeaders) : ReqHeaders :=
  let h1 :=
    match auth with
    | some a => { h with authorization := a }
    | none => h
  let h2 :=
    if h1.userAgent = [] then h1
    else { h1 with
      userAgent := "gcr-proxy/0.1 customDomain/".data ++ origHost ++ " ".data ++ h1.userAgent }
  { h2 with accept := "*/*".data }

/-- Two's-complement wrap of an integer into the range of a 64-bit Go
int, the type underlying time.Duration. -/
def int64wrap (n : Int) : Int :=
  (n + 9223372036854775808) % 18446744073709551616 - 9223372036854775808

/-- Model of the timer duration armed by metadataServerAuth.updateToken
(main.go line 297): time.Duration(expiresIn) * time.Second minus
5 * time.Minute, computed in int64 nanoseconds with Go wraparound. -/
def metadataRefreshTimerNanos (expiresIn : Int) : Int :=
  int64wrap (int64wrap (expiresIn * 1000000000) - 300000000000)

/-- Soundness of the lazy capture: a successful scan splits its input at
the first closing quote. -/
lemma scanClose_sound : ∀ {u cnt rest : List Char},
    scanClose u = some (cnt, rest) → u = cnt ++ '"' :: rest := by
  intro u
  induction u with
  | nil => intro cnt rest h; simp [scanClose] at h
  | cons c cs ih =>
    intro cnt rest h
    by_cases hc : c = '"'
    · subst hc
      have hstep : scanClose ('"' :: cs) = some ([], cs) := rfl
      rw [hstep] at h
      simp only [Option.some.injEq, Prod.mk.injEq] at h
      rw [← h.1, ← h.2]
      rfl
    · by_cases hn : c = '\n'
      · rw [scanClose, if_neg hc, if_pos hn] at h
        exact absurd h (by simp)
      · rw [scanClose, if_neg hc, if_neg hn] at h
        cases hs : scanClose cs with
        | none => rw [hs] at h; simp at h
        | some pr =>
          rw [hs] at h
          simp only [Option.map_some', Option.some.injEq, Prod.mk.injEq] at h
          obtain ⟨h1, h2⟩ := h
          have hcs : cs = pr.1 ++ '"' :: pr.2 := ih (by rw [hs])
          rw [← h1, ← h2, hcs]
          rfl

/-- Completeness of the lazy capture: content free of quotes and newlines
is captured up to the supplied closing quote. -/
lemma scanClose_complete : ∀ {cnt : List Char} (rest : List Char),
    ('"' ∉ cnt) → ('\n' ∉ cnt) → scanClose (cnt ++ '"' :: rest) = some (cnt, rest) := by
  intro cnt
  induction cnt with
  | nil => intro rest _ _; rfl
  | cons c cs ih =>
    intro rest hq hn
    have hc : ¬ c = '"' := fun h => hq (by rw [h]; exact List.mem_cons_self _ _)
    have hcn : ¬ c = '\n' := fun h => hn (by rw [h]; exact List.mem_cons_self _ _)
    have hq' : ('"' ∉ cs) := fun h => hq (List.mem_cons_of_mem _ h)
    have hn' : ('\n' ∉ cs) := fun h => hn (List.mem_cons_of_mem _ h)
    show scanClose (c :: (cs ++ '"' :: rest)) = some (c :: cs, rest)
    rw [scanClose, if_neg hc, if_neg hcn, ih rest hq' hn']
    rfl

/-- Failure of the lazy capture is decided inside any portion of the
input that contains a quote: the material after it cannot matter. -/
lemma scanClose_none_congr : ∀ {u : List Char} (x y : List Char), ('"' ∈ u) →
    (scanClose (u ++ x) = none ↔ scanClose (u ++ y) = none) := by
  intro u
  induction u with
  | nil => intro x y h; exact absurd h (List.not_mem_nil _)
  | cons c cs ih =>
    intro x y h
    by_cases hc : c = '"'
    · subst hc
      show (scanClose ('"' :: (cs ++ x)) = none ↔ scanClose ('"' :: (cs ++ y)) = none)
      rw [scanClose, if_pos rfl, scanClose, if_pos rfl]
      simp
    · by_cases hn : c = '\n'
      · subst hn
        show (scanClose ('\n' :: (cs ++ x)) = none ↔ scanClose ('\n' :: (cs ++ y)) = none)
        rw [scanClose, if_neg hc, if_pos rfl, scanClose, if_neg hc, if_pos rfl]
      · have hmem : ('"' ∈ cs) := by
          rcases List.mem_cons.mp h with h1 | h1
          · exact absurd h1.symm hc
          · exact h1
        show (scanClose (c :: (cs ++ x)) = none ↔ scanClose (c :: (cs ++ y)) = none)
        rw [scanClose, if_neg hc, if_neg hn, scanClose, if_neg hc, if_neg hn]
        rw [Option.map_eq_none', Option.map_eq_none']
        exact ih x y hmem

/-- A pattern no longer than the first part of an append is a prefix of
the whole exactly when it is a prefix of that first part. -/
lemma prefix_append_iff_left {pat u : List Char} (x : List Char)
    (h : pat.length ≤ u.length) : pat <+: u ++ x ↔ pat <+: u := by
  constructor
  · intro hp
    rw [List.prefix_iff_eq_take] at hp ⊢
    rw [List.take_append_eq_append_take, Nat.sub_eq_zero_of_le h] at hp
    simpa using hp
  · intro hp
    exact hp.trans (List.prefix_append u x)

/-- The Boolean prefix test over an append only depends on the first part
when that part already covers the pattern. -/
lemma isPrefixOf_append_congr {pat u : List Char} (x y : List Char)
    (h : pat.length ≤ u.length) :
    pat.isPrefixOf (u ++ x) = pat.isPrefixOf (u ++ y) := by
  rw [Bool.eq_iff_iff, List.isPrefixOf_iff_prefix, List.isPrefixOf_iff_prefix,
    prefix_append_iff_left x h, prefix_append_iff_left y h]

/-- Overlap argument: a pattern without a nonempty proper border cannot
match starting strictly inside the front part a of a ++ pat ++ t when a
itself does not contain the pattern. -/
lemma no_match_in_front {pat a : List Char} (t : List Char)
    (hpat : ∀ k, k < pat.length → 0 < k →
      pat.drop k ≠ List.take (pat.length - k) pat)
    (ha : ¬ pat <:+: a) :
    ∀ i, i < a.length → ¬ pat <+: List.drop i (a ++ pat ++ t) := by
  intro i hi hpre
  have hdrop : List.drop i (a ++ pat ++ t) = List.drop i a ++ (pat ++ t) := by
    rw [List.append_assoc, List.drop_append_eq_append_drop,
      Nat.sub_eq_zero_of_le (le_of_lt hi)]
    rfl
  rw [hdrop] at hpre
  have hul : (List.drop i a).length = a.length - i := List.length_drop i a
  have hupos : 0 < (List.drop i a).length := by omega
  by_cases hcase : pat.length ≤ (List.drop i a).length
  · have hpu : pat <+: List.drop i a := (prefix_append_iff_left (pat ++ t) hcase).mp hpre
    apply ha
    obtain ⟨v, hv⟩ := hpu
    obtain ⟨w, hw⟩ := List.drop_suffix i a
    exact ⟨w, v, by rw [List.append_assoc, hv, hw]⟩
  · push_neg at hcase
    have hp2 : pat = List.take pat.length (List.drop i a ++ (pat ++ t)) :=
      List.prefix_iff_eq_take.mp hpre
    have h1 : List.take (List.drop i a).length (List.drop i a ++ (pat ++ t)) =
        List.drop i a := List.take_left _ _
    have h2 : List.take (List.drop i a).length pat = List.drop i a := by
      have h2a := congrArg (List.take (List.drop i a).length) hp2
      rw [List.take_take, min_eq_left (le_of_lt hcase)] at h2a
      exact h2a.trans h1
    have h3 : pat = List.drop i a ++ List.take (pat.length - (List.drop i a).length) pat := by
      calc pat = List.take pat.length (List.drop i a ++ (pat ++ t)) := hp2
        _ = List.take pat.length (List.drop i a) ++
            List.take (pat.length - (List.drop i a).length) (pat ++ t) :=
          List.take_append_eq_append_take
        _ = List.drop i a ++ List.take (pat.length - (List.drop i a).length) (pat ++ t) := by
          rw [List.take_of_length_le (le_of_lt hcase)]
        _ = List.drop i a ++ (List.take (pat.length - (List.drop i a).length) pat ++
            List.take ((pat.length - (List.drop i a).length) - pat.length) t) := by
          rw [List.take_append_eq_append_take]
        _ = List.drop i a ++ List.take (pat.length - (List.drop i a).length) pat := by
          rw [Nat.sub_eq_zero_of_le (Nat.sub_le _ _), List.take_zero, List.append_nil]
    have h4 : pat.drop (List.drop i a).length =
        List.take (pat.length - (List.drop i a).length) pat := by
      have h4a := congrArg (List.drop (List.drop i a).length) h3
      rw [List.drop_append_eq_append_drop, List.drop_eq_nil_of_le le_rfl,
        Nat.sub_self] at h4a
      simpa using h4a
    exact hpat (List.drop i a).length hcase hupos h4

/-- Every nonempty tail of the realm literal keeps its closing quote. -/
lemma quote_mem_realmLit_drop : ∀ k, k < 7 → ('"' ∈ List.drop k realmLit) := by decide

/-- Dropping seven characters from p ++ realmLit with p nonempty leaves a
part that still contains a double quote. -/
lemma quote_mem_drop_seven (p : List Char) (hp : p ≠ []) :
    ('"' ∈ List.drop 7 (p ++ realmLit)) := by
  rw [List.drop_append_eq_append_drop]
  by_cases h : 7 ≤ p.length
  · rw [Nat.sub_eq_zero_of_le h]
    exact List.mem_append.mpr (Or.inr (by decide))
  · push_neg at h
    rw [List.drop_eq_nil_of_le (by omega : p.length ≤ 7)]
    have hk : 7 - p.length < 7 := by
      have : 0 < p.length := List.length_pos.mpr hp
      omega
    simpa using quote_mem_realmLit_drop (7 - p.length) hk

/-- The realm literal has no nonempty proper border. -/
lemma realmLit_no_border : ∀ k, k < realmLit.length → 0 < k →
    realmLit.drop k ≠ List.take (realmLit.length - k) realmLit := by decide

/-- The scope literal repository: has no nonempty proper border. -/
lemma repositoryLit_no_border : ∀ k, k < "repository:".data.length → 0 < k →
    "repository:".data.drop k ≠
      List.take ("repository:".data.length - k) "repository:".data := by decide

/-- Unfolding of findRealm at a successful head match. -/
lemma findRealm_cons_pos {c : Char} {cs cnt rest : List Char}
    (hp : realmLit.isPrefixOf (c :: cs) = true)
    (hs : scanClose (List.drop 7 (c :: cs)) = some (cnt, rest)) :
    findRealm (c :: cs) = some ([], cnt, rest) := by
  simp only [findRealm, hp, hs, if_true]

/-- Unfolding of findRealm when the literal is not a prefix at the head. -/
lemma findRealm_cons_neg {c : Char} {cs : List Char}
    (hp : realmLit.isPrefixOf (c :: cs) = false) :
    findRealm (c :: cs) = (findRealm cs).map (fun pr => (c :: pr.1, pr.2.1, pr.2.2)) := by
  simp only [findRealm, hp, if_false, Bool.false_eq_true]

/-- Unfolding of findRealm when the capture scan fails at the head: the
search resumes one character further, whether or not the literal was a
prefix there. -/
lemma findRealm_cons_blocked {c : Char} {cs : List Char}
    (hs : scanClose (List.drop 7 (c :: cs)) = none) :
    findRealm (c :: cs) = (findRealm cs).map (fun pr => (c :: pr.1, pr.2.1, pr.2.2)) := by
  cases hp : realmLit.isPrefixOf (c :: cs) with
  | false => exact findRealm_cons_neg hp
  | true => simp only [findRealm, hp, hs, if_true]

/-- The leftmost realm match skips over a front part in which no match
can start. -/
lemma findRealm_append {a s : List Char}
    (h : ∀ i, i < a.length → ¬ realmLit <+: List.drop i (a ++ s)) :
    findRealm (a ++ s) = (findRealm s).map (fun pr => (a ++ pr.1, pr.2.1, pr.2.2)) := by
  induction a with
  | nil =>
    simp only [List.nil_append]
    cases findRealm s with
    | none => simp
    | some pr => simp
  | cons c a ih =>
    have h0 : ¬ realmLit <+: (c :: (a ++ s)) := by
      have := h 0 (by simp)
      simpa using this
    have hp : realmLit.isPrefixOf (c :: (a ++ s)) = false := by
      cases hb : realmLit.isPrefixOf (c :: (a ++ s))
      · rfl
      · exact absurd (List.isPrefixOf_iff_prefix.mp hb) h0
    have h' : ∀ i, i < a.length → ¬ realmLit <+: List.drop i (a ++ s) := by
      intro i hi
      have := h (i + 1) (by simpa using Nat.succ_lt_succ hi)
      rw [List.cons_append, List.drop_succ_cons] at this
      exact this
    rw [List.cons_append, findRealm_cons_neg hp, ih h']
    cases findRealm s with
    | none => rfl
    | some pr => simp

/-- findRealm matches at the very start when the input begins with the
realm literal followed by clean captured content and a closing quote. -/
lemma findRealm_head {cnt : List Char} (rest : List Char)
    (hq : ('"' ∉ cnt)) (hn : ('\n' ∉ cnt)) :
    findRealm (realmLit ++ cnt ++ '"' :: rest) = some ([], cnt, rest) := by
  have e : realmLit ++ cnt ++ '"' :: rest =
      'r' :: 'e' :: 'a' :: 'l' :: 'm' :: '=' :: '"' :: (cnt ++ '"' :: rest) := by
    simp [realmLit]
  rw [e]
  apply findRealm_cons_pos
  · rw [List.isPrefixOf_iff_prefix, ← e, List.append_assoc]
    exact List.prefix_append _ _
  · exact scanClose_complete rest hq hn

/-- Inversion of the mapped tail step of findRealm, together with the
input decomposition it yields. -/
lemma findRealm_cons_tail_sound {c : Char} {cs p cnt rest : List Char}
    (h : (findRealm cs).map (fun pr => (c :: pr.1, pr.2.1, pr.2.2)) = some (p, cnt, rest))
    (ih : ∀ {p cnt rest : List Char}, findRealm cs = some (p, cnt, rest) →
      cs = p ++ realmLit ++ cnt ++ '"' :: rest) :
    c :: cs = p ++ realmLit ++ cnt ++ '"' :: rest := by
  cases hf : findRealm cs with
  | none => rw [hf] at h; simp at h
  | some pr =>
    obtain ⟨p1, c1, r1⟩ := pr
    rw [hf] at h
    simp only [Option.map_some', Option.some.injEq, Prod.mk.injEq] at h
    obtain ⟨h1, h2, h3⟩ := h
    have hcs : cs = p1 ++ realmLit ++ c1 ++ '"' :: r1 := ih hf
    rw [← h1, ← h2, ← h3, hcs]
    simp [List.cons_append, List.append_assoc]

/-- Soundness of findRealm: a match decomposes the input into the part
before the match, the matched realm text, and the remainder. -/
lemma findRealm_sound : ∀ {s p cnt rest : List Char},
    findRealm s = some (p, cnt, rest) → s = p ++ realmLit ++ cnt ++ '"' :: rest := by
  intro s
  induction s with
  | nil => intro p cnt rest h; simp [findRealm] at h
  | cons c cs ih =>
    intro p cnt rest h
    by_cases hp : realmLit.isPrefixOf (c :: cs) = true
    · cases hs : scanClose (List.drop 7 (c :: cs)) with
      | some pr =>
        obtain ⟨c1, r1⟩ := pr
        rw [findRealm_cons_pos hp hs] at h
        simp only [Option.some.injEq, Prod.mk.injEq] at h
        obtain ⟨h1, h2, h3⟩ := h
        have hpre : realmLit <+: (c :: cs) := List.isPrefixOf_iff_prefix.mp hp
        obtain ⟨v, hv⟩ := hpre
        have hv7 : List.drop 7 (c :: cs) = v := by
          rw [← hv]
          exact List.drop_left realmLit v
        rw [hv7] at hs
        have hvdec : v = c1 ++ '"' :: r1 := scanClose_sound hs
        rw [← h1, ← h2, ← h3, ← hv, hvdec]
        simp [List.append_assoc]
      | none =>
        rw [findRealm_cons_blocked hs] at h
        exact findRealm_cons_tail_sound h (fun hf => ih hf)
    · have hp' : realmLit.isPrefixOf (c :: cs) = false := by
        cases hb : realmLit.isPrefixOf (c :: cs)
        · rfl
        · exact absurd hb hp
      rw [findRealm_cons_neg hp'] at h
      exact findRealm_cons_tail_sound h (fun hf => ih hf)

/-- Inversion of the mapped tail step of findRealm. -/
lemma findRealm_map_inv {c : Char} {cs p cnt rest : List Char}
    (h : (findRealm cs).map (fun pr => (c :: pr.1, pr.2.1, pr.2.2)) =
      some (c :: p, cnt, rest)) :
    findRealm cs = some (p, cnt, rest) := by
  cases hf : findRealm cs with
  | none => rw [hf] at h; simp at h
  | some pr =>
    obtain ⟨p1, c1, r1⟩ := pr
    rw [hf] at h
    simp only [Option.map_some', Option.some.injEq, Prod.mk.injEq, List.cons.injEq,
      true_and] at h
    obtain ⟨h1, h2, h3⟩ := h
    rw [h1, h2, h3]

/-- The position of the leftmost realm match does not depend on the
captured content: replacing the content and the remainder with other
clean content leaves a match in the same place. -/
lemma findRealm_replace : ∀ (p c1 r1 c2 r2 : List Char),
    findRealm (p ++ realmLit ++ c1 ++ '"' :: r1) = some (p, c1, r1) →
    ('"' ∉ c2) → ('\n' ∉ c2) →
    findRealm (p ++ realmLit ++ c2 ++ '"' :: r2) = some (p, c2, r2) := by
  intro p
  induction p with
  | nil =>
    intro c1 r1 c2 r2 h1 hq hn
    simpa using findRealm_head r2 hq hn
  | cons c p ih =>
    intro c1 r1 c2 r2 h1 hq hn
    have e1 : (c :: p) ++ realmLit ++ c1 ++ '"' :: r1 =
        c :: (p ++ realmLit ++ c1 ++ '"' :: r1) := by
      simp [List.cons_append, List.append_assoc]
    have e2 : (c :: p) ++ realmLit ++ c2 ++ '"' :: r2 =
        c :: (p ++ realmLit ++ c2 ++ '"' :: r2) := by
      simp [List.cons_append, List.append_assoc]
    rw [e1] at h1
    rw [e2]
    have eu1 : c :: (p ++ realmLit ++ c1 ++ '"' :: r1) =
        (c :: (p ++ realmLit)) ++ (c1 ++ '"' :: r1) := by
      simp [List.cons_append, List.append_assoc]
    have eu2 : c :: (p ++ realmLit ++ c2 ++ '"' :: r2) =
        (c :: (p ++ realmLit)) ++ (c2 ++ '"' :: r2) := by
      simp [List.cons_append, List.append_assoc]
    have hrl7 : realmLit.length = 7 := rfl
    have hlen : realmLit.length ≤ (c :: (p ++ realmLit)).length := by
      simp only [List.length_cons, List.length_append, hrl7]
      omega
    have hlen7 : 7 ≤ (c :: (p ++ realmLit)).length := by
      rw [← hrl7]; exact hlen
    have hcond : realmLit.isPrefixOf (c :: (p ++ realmLit ++ c1 ++ '"' :: r1)) =
        realmLit.isPrefixOf (c :: (p ++ realmLit ++ c2 ++ '"' :: r2)) := by
      rw [eu1, eu2]
      exact isPrefixOf_append_congr _ _ hlen
    cases hcp : realmLit.isPrefixOf (c :: (p ++ realmLit ++ c1 ++ '"' :: r1)) with
    | false =>
      rw [findRealm_cons_neg hcp] at h1
      have h1' := findRealm_map_inv h1
      have h2' := ih c1 r1 c2 r2 h1' hq hn
      have hcpB : realmLit.isPrefixOf (c :: (p ++ realmLit ++ c2 ++ '"' :: r2)) = false := by
        rw [← hcond]; exact hcp
      rw [findRealm_cons_neg hcpB, h2']
      rfl
    | true =>
      cases hsc : scanClose (List.drop 7 (c :: (p ++ realmLit ++ c1 ++ '"' :: r1))) with
      | some pr =>
        obtain ⟨cx, rx⟩ := pr
        rw [findRealm_cons_pos hcp hsc] at h1
        simp at h1
      | none =>
        rw [findRealm_cons_blocked hsc] at h1
        have h1' := findRealm_map_inv h1
        have h2' := ih c1 r1 c2 r2 h1' hq hn
        have hw1 : List.drop 7 (c :: (p ++ realmLit ++ c1 ++ '"' :: r1)) =
            List.drop 7 (c :: (p ++ realmLit)) ++ (c1 ++ '"' :: r1) := by
          rw [eu1, List.drop_append_eq_append_drop, Nat.sub_eq_zero_of_le hlen7]
          rfl
        have hw2 : List.drop 7 (c :: (p ++ realmLit ++ c2 ++ '"' :: r2)) =
            List.drop 7 (c :: (p ++ realmLit)) ++ (c2 ++ '"' :: r2) := by
          rw [eu2, List.drop_append_eq_append_drop, Nat.sub_eq_zero_of_le hlen7]
          rfl
        have hquote : ('"' ∈ List.drop 7 (c :: (p ++ realmLit))) := by
          have e3 : c :: (p ++ realmLit) = (c :: p) ++ realmLit := by
            simp [List.cons_append]
          rw [e3]
          exact quote_mem_drop_seven (c :: p) (List.cons_ne_nil c p)
        have hscB : scanClose (List.drop 7 (c :: (p ++ realmLit ++ c2 ++ '"' :: r2))) = none := by
          rw [hw2]
          rw [hw1] at hsc
          exact (scanClose_none_congr _ _ hquote).mp hsc
        rw [findRealm_cons_blocked hscB, h2']
        rfl

/-- A realm match always consumes characters: the remainder is shorter
than the input. -/
lemma findRealm_rest_lt {s p cnt rest : List Char}
    (h : findRealm s = some (p, cnt, rest)) : rest.length < s.length := by
  have hs := findRealm_sound h
  rw [hs]
  simp only [List.length_append, List.length_cons]
  omega

/-- The fuelled worker is insensitive to the exact fuel once the fuel
covers the input length. -/
lemma replAux_fuel_congr (repl : List Char) :
    ∀ n s f g, s.length ≤ n → s.length ≤ f → s.length ≤ g →
      replAux repl f s = replAux repl g s := by
  intro n
  induction n with
  | zero =>
    intro s f g hn _ _
    have hs : s = [] := List.length_eq_zero.mp (Nat.le_zero.mp hn)
    subst hs
    cases f <;> cases g <;> simp [replAux, findRealm]
  | succ n ih =>
    intro s f g hn hf hg
    by_cases hs : s = []
    · subst hs
      cases f <;> cases g <;> simp [replAux, findRealm]
    · have hpos : 0 < s.length := List.length_pos.mpr hs
      cases f with
      | zero => omega
      | succ f' =>
        cases g with
        | zero => omega
        | succ g' =>
          cases hr : findRealm s with
          | none => simp [replAux, hr]
          | some pr =>
            obtain ⟨p, cnt, rest⟩ := pr
            have hrl : rest.length < s.length := findRealm_rest_lt hr
            simp only [replAux, hr]
            rw [ih rest f' g' (by omega) (by omega) (by omega)]

/-- Behavior of replaceRealmAll when there is no match: the input is
returned unchanged. -/
lemma replaceRealmAll_none {repl s : List Char} (h : findRealm s = none) :
    replaceRealmAll repl s = s := by
  rw [replaceRealmAll]
  rcases hn : s.length with _ | m
  · rfl
  · simp [replAux, h]

/-- Behavior of replaceRealmAll at a match: the front part and the realm
literal are kept, the captured content is replaced, and rewriting
continues after the closing quote. -/
lemma replaceRealmAll_step {repl s p cnt rest : List Char}
    (h : findRealm s = some (p, cnt, rest)) :
    replaceRealmAll repl s =
      p ++ realmLit ++ repl ++ '"' :: replaceRealmAll repl rest := by
  have hrl : rest.length < s.length := findRealm_rest_lt h
  rw [replaceRealmAll, replaceRealmAll]
  rcases hn : s.length with _ | m
  · omega
  · simp only [replAux, h]
    rw [replAux_fuel_congr repl rest.length rest m rest.length le_rfl (by omega) le_rfl]

/-- Realm rewriting is idempotent when the inserted text contains neither
a double quote nor a newline. -/
lemma replaceRealmAll_idem (repl : List Char) (hq : ('"' ∉ repl)) (hn : ('\n' ∉ repl)) :
    ∀ n s, s.length ≤ n →
      replaceRealmAll repl (replaceRealmAll repl s) = replaceRealmAll repl s := by
  intro n
  induction n with
  | zero =>
    intro s h
    have hs : s = [] := List.length_eq_zero.mp (Nat.le_zero.mp h)
    subst hs
    have h0 : findRealm ([] : List Char) = none := rfl
    rw [replaceRealmAll_none h0, replaceRealmAll_none h0]
  | succ n ih =>
    intro s h
    cases hr : findRealm s with
    | none => rw [replaceRealmAll_none hr, replaceRealmAll_none hr]
    | some pr =>
      obtain ⟨p, cnt, rest⟩ := pr
      have hrl := findRealm_rest_lt hr
      have hstep : replaceRealmAll repl s =
          p ++ realmLit ++ repl ++ '"' :: replaceRealmAll repl rest :=
        replaceRealmAll_step hr
      have hsnd := findRealm_sound hr
      rw [hsnd] at hr
      have hf2 := findRealm_replace p cnt rest repl (replaceRealmAll repl rest) hr hq hn
      rw [hstep, replaceRealmAll_step hf2, ih rest (by omega)]

/-- A header that decomposes around a single clean realm group, with no
realm literal occurring in the front part, has exactly that group as its
leftmost match. -/
lemma findRealm_decomp {a r b : List Char}
    (ha : ¬ realmLit <:+: a) (hq : ('"' ∉ r)) (hn : ('\n' ∉ r)) :
    findRealm (a ++ realmLit ++ r ++ '"' :: b) = some (a, r, b) := by
  have hno : ∀ i, i < a.length →
      ¬ realmLit <+: List.drop i (a ++ realmLit ++ (r ++ '"' :: b)) :=
    no_match_in_front (r ++ '"' :: b) realmLit_no_border ha
  have hno' : ∀ i, i < a.length →
      ¬ realmLit <+: List.drop i (a ++ (realmLit ++ (r ++ '"' :: b))) := by
    intro i hi
    have hh := hno i hi
    rw [List.append_assoc] at hh
    exact hh
  have hmain := findRealm_append (s := realmLit ++ (r ++ '"' :: b)) hno'
  have hhead : findRealm (realmLit ++ (r ++ '"' :: b)) = some ([], r, b) := by
    have hh := findRealm_head b hq hn
    rw [List.append_assoc] at hh
    exact hh
  have e : a ++ realmLit ++ r ++ '"' :: b = a ++ (realmLit ++ (r ++ '"' :: b)) := by
    simp [List.append_assoc]
  rw [e, hmain, hhead]
  simp

/-- replaceFirst walks over a front part in which no occurrence of the
pattern starts. -/
lemma replaceFirst_append {old new : List Char} : ∀ {a s : List Char},
    (∀ i, i < a.length → ¬ old <+: List.drop i (a ++ s)) →
    replaceFirst old new (a ++ s) = a ++ replaceFirst old new s := by
  intro a
  induction a with
  | nil => intro s _; simp
  | cons c a ih =>
    intro s h
    have h0 : ¬ old <+: (c :: (a ++ s)) := by
      have hh := h 0 (by simp)
      simpa using hh
    have hp : old.isPrefixOf (c :: (a ++ s)) = false := by
      cases hb : old.isPrefixOf (c :: (a ++ s))
      · rfl
      · exact absurd (List.isPrefixOf_iff_prefix.mp hb) h0
    have h' : ∀ i, i < a.length → ¬ old <+: List.drop i (a ++ s) := by
      intro i hi
      have hh := h (i + 1) (by simpa using Nat.succ_lt_succ hi)
      rw [List.cons_append, List.drop_succ_cons] at hh
      exact hh
    rw [List.cons_append]
    simp only [replaceFirst, hp, if_false, Bool.false_eq_true]
    rw [ih h', List.cons_append]

/-- replaceFirst replaces an occurrence sitting at the head. -/
lemma replaceFirst_head {old new : List Char} (b : List Char) (h : old ≠ []) :
    replaceFirst old new (old ++ b) = new ++ b := by
  rcases old with _ | ⟨o, os⟩
  · exact absurd rfl h
  · have e : (o :: os) ++ b = o :: (os ++ b) := List.cons_append o os b
    have hp : (o :: os).isPrefixOf (o :: (os ++ b)) = true := by
      rw [List.isPrefixOf_iff_prefix, ← e]
      exact List.prefix_append _ _
    rw [e]
    simp only [replaceFirst, hp, if_true]
    rw [← e, List.drop_left]

/-- replaceFirst leaves an input without any occurrence untouched. -/
lemma replaceFirst_no_occurrence {old new : List Char} : ∀ {s : List Char},
    ¬ old <:+: s → replaceFirst old new s = s := by
  intro s
  induction s with
  | nil => intro _; rfl
  | cons c cs ih =>
    intro h
    have hp : old.isPrefixOf (c :: cs) = false := by
      cases hb : old.isPrefixOf (c :: cs)
      · rfl
      · exact absurd (List.isPrefixOf_iff_prefix.mp hb).isInfix h
    simp only [replaceFirst, hp, if_false, Bool.false_eq_true]
    rw [ih (fun hin => h (List.infix_cons hin))]

/-- replaceFirst rewrites exactly the first occurrence of a border-free
pattern when the front part contains none. -/
lemma replaceFirst_decomp {old new a b : List Char}
    (hpat : ∀ k, k < old.length → 0 < k →
      old.drop k ≠ List.take (old.length - k) old)
    (ha : ¬ old <:+: a) (hne : old ≠ []) :
    replaceFirst old new (a ++ old ++ b) = a ++ new ++ b := by
  have hno : ∀ i, i < a.length → ¬ old <+: List.drop i (a ++ old ++ b) :=
    no_match_in_front b hpat ha
  have hno' : ∀ i, i < a.length → ¬ old <+: List.drop i (a ++ (old ++ b)) := by
    intro i hi
    have hh := hno i hi
    rw [List.append_assoc] at hh
    exact hh
  have e : a ++ old ++ b = a ++ (old ++ b) := List.append_assoc a old b
  rw [e, replaceFirst_append hno', replaceFirst_head b hne, List.append_assoc]

/-- C1: for every inbound request whose URL path is /v2/rest with rest
non-empty, the registry path rewriter sets the outbound path to
/v2/repoPrefix/rest (only the leading /v2/ is replaced), leaves the query
unchanged, sets the scheme to https and sets both the Host header and the
URL host to the configured upstream host; the exact path /v2/ is left
unchanged.  The dollar hypothesis keeps the Sprintf-built replacement
template literal. -/
theorem rewriteRegistryV2URL_spec (c : RegistryConfig) (r : RegRequest)
    (hd : ('$' ∉ c.repoPrefix)) :
    (∀ rest, rest ≠ [] → r.path = "/v2/".data ++ rest →
      rewriteRegistryV2URL c r =
        { scheme := "https".data, urlHost := c.host,
          path := "/v2/".data ++ c.repoPrefix ++ "/".data ++ rest,
          query := r.query, hostHeader := c.host }) ∧
    (r.path = "/v2/".data →
      rewriteRegistryV2URL c r =
        { scheme := "https".data, urlHost := c.host, path := "/v2/".data,
          query := r.query, hostHeader := c.host }) := by
  obtain ⟨sc, uh, pa, qu, hh⟩ := r
  constructor
  · intro rest hne hpath
    simp only at hpath
    subst hpath
    have hneq : ¬ ("/v2/".data ++ rest = "/v2/".data) := by
      intro hcontra
      have hlen := congrArg List.length hcontra
      rw [List.length_append] at hlen
      exact hne (List.length_eq_zero.mp (by omega))
    have hpre : "/v2/".data.isPrefixOf ("/v2/".data ++ rest) = true := by
      rw [List.isPrefixOf_iff_prefix]
      exact List.prefix_append _ _
    have hdrop : List.drop 4 ("/v2/".data ++ rest) = rest := List.drop_left "/v2/".data rest
    simp only [rewriteRegistryV2URL, replaceV2Anchored]
    rw [if_neg hneq, if_pos hpre, hdrop]
  · intro hpath
    simp only at hpath
    subst hpath
    simp only [rewriteRegistryV2URL, if_true]

/-- C4: a token request without a scope parameter is returned by the
director completely unchanged; in particular its URL host and Host header
are never pointed at the discovered token endpoint, so the request is not
forwarded there. -/
theorem tokenProxyDirector_no_scope (te : EndpointUrl) ( pre : List Char)
    (r : TokenRequest) (h : queryGet "scope".data r.query = []) :
    tokenProxyDirector te pre r = r := by
  simp [tokenProxyDirector, h]

/-- C10: a token request whose scope parameter is present with an empty
value takes the same early return as one with no scope parameter: the
director leaves the request untouched. -/
theorem tokenProxyDirector_empty_scope (te : EndpointUrl) ( pre : List Char)
    (r : TokenRequest)
    (h : r.query.find? (fun p => decide (p.1 = "scope".data)) =
      some ("scope".data, [])) :
    tokenProxyDirector te pre r = r := by
  have hget : queryGet "scope".data r.query = [] := by
    rw [queryGet, h]
  simp [tokenProxyDirector, hget]

/-- C6: token-endpoint discovery fails exactly when the upstream GET /v2/
response has no www-authenticate header or that header has no realm
match, and on success the endpoint is the capture of the first realm
group (main.go aborts startup via log.Fatalf when the error is
returned). -/
theorem discoverTokenService_spec (hdr : List Char) :
    (discoverTokenService hdr = none ↔ (hdr = [] ∨ findRealm hdr = none)) ∧
    (∀ p cnt rest, findRealm hdr = some (p, cnt, rest) →
      discoverTokenService hdr = some cnt) := by
  constructor
  · by_cases hh : hdr = []
    · subst hh
      simp [discoverTokenService]
    · cases hf : findRealm hdr with
      | none => simp [discoverTokenService, hh, hf]
      | some pr =>
        obtain ⟨p, cnt, rest⟩ := pr
        simp [discoverTokenService, hh, hf]
  · intro p cnt rest hf
    have hh : hdr ≠ [] := by
      intro he
      subst he
      simp [findRealm] at hf
    simp [discoverTokenService, hh, hf]

/-- C5: the outbound request carries the authenticator's current value in
Authorization when an authenticator is configured, and the proxy leaves
Authorization exactly as it came in when none is configured. -/
theorem registryRoundTrip_authorization (auth : Option (List Char))
    (origHost : List Char) (h : ReqHeaders) :
    (∀ a, auth = some a →
      (registryRoundTripPrepare auth origHost h).authorization = a) ∧
    (auth = none →
      (registryRoundTripPrepare auth origHost h).authorization = h.authorization) := by
  obtain ⟨ha, hu, hac⟩ := h
  constructor
  · intro a haeq
    subst haeq
    by_cases hcase : hu = [] <;> simp [registryRoundTripPrepare, hcase]
  · intro haeq
    subst haeq
    by_cases hcase : hu = [] <;> simp [registryRoundTripPrepare, hcase]

/-- C9: the User-Agent decoration is conditional: an empty or absent
inbound User-Agent is forwarded without the proxy setting one, and only a
non-empty one is rewritten to the decorated form. -/
theorem registryRoundTrip_userAgent (auth : Option (List Char))
    (origHost : List Char) (h : ReqHeaders) :
    (h.userAgent = [] → (registryRoundTripPrepare auth origHost h).userAgent = []) ∧
    (h.userAgent ≠ [] → (registryRoundTripPrepare auth origHost h).userAgent =
      "gcr-proxy/0.1 customDomain/".data ++ origHost ++ " ".data ++ h.userAgent) := by
  obtain ⟨ha, hu, hac⟩ := h
  constructor
  · intro hcase
    simp only at hcase
    cases auth <;> simp [registryRoundTripPrepare, hcase]
  · intro hcase
    simp only at hcase
    cases auth <;> simp [registryRoundTripPrepare, hcase]

/-- An integer in int64 range wraps to itself. -/
lemma int64wrap_eq {n : Int} (h1 : -9223372036854775808 ≤ n)
    (h2 : n < 9223372036854775808) : int64wrap n = n := by
  rw [int64wrap]
  omega

/-- C7: after a token fetch returning expiresIn seconds, the refresh
timer is armed at exactly (expiresIn - 300) seconds, five minutes before
expiry; in particular 3300 seconds for expiresIn = 3600.  The bound keeps
the int64 nanosecond arithmetic of main.go line 297 from wrapping. -/
theorem metadataRefreshTimer_spec :
    (∀ e : Int, 0 ≤ e → e ≤ 9000000000 →
      metadataRefreshTimerNanos e = (e - 300) * 1000000000) ∧
    metadataRefreshTimerNanos 3600 = (3600 - 300) * 1000000000 := by
  have key : ∀ e : Int, 0 ≤ e → e ≤ 9000000000 →
      metadataRefreshTimerNanos e = (e - 300) * 1000000000 := by
    intro e h1 h2
    have hb1 : 0 ≤ e * 1000000000 := by positivity
    have hb2 : e * 1000000000 ≤ 9000000000 * 1000000000 :=
      mul_le_mul_of_nonneg_right h2 (by norm_num)
    norm_num at hb2
    rw [metadataRefreshTimerNanos]
    rw [int64wrap_eq (n := e * 1000000000) (by omega) (by omega)]
    rw [int64wrap_eq (n := e * 1000000000 - 300000000000) (by omega) (by omega)]
    ring
  exact ⟨key, key 3600 (by norm_num) (by norm_num)⟩

/-- C2: a response without a www-authenticate header passes through
untouched; a header holding a clean realm group has exactly that group's
content replaced by https://host/_token with everything before and after
the group kept verbatim; a header without any realm match passes through
untouched.  The dollar hypothesis keeps the Sprintf-built replacement
literal. -/
theorem updateTokenEndpoint_spec (host v : List Char) (hd : ('$' ∉ host)) :
    (v = [] → updateTokenEndpoint host v = v) ∧
    (∀ a r b, ¬ realmLit <:+: a → ('"' ∉ r) → ('\n' ∉ r) → findRealm b = none →
      v = a ++ realmLit ++ r ++ '"' :: b →
      updateTokenEndpoint host v =
        a ++ realmLit ++ ("https://".data ++ host ++ "/_token".data) ++ '"' :: b) ∧
    (findRealm v = none → updateTokenEndpoint host v = v) := by
  refine ⟨?_, ?_, ?_⟩
  · intro hv
    rw [updateTokenEndpoint, if_pos hv]
  · intro a r b ha hq hn hb hv
    subst hv
    have hne : a ++ realmLit ++ r ++ '"' :: b ≠ [] := by simp
    rw [updateTokenEndpoint, if_neg hne]
    rw [replaceRealmAll_step (findRealm_decomp ha hq hn)]
    rw [replaceRealmAll_none hb]
  · intro hv
    by_cases hempty : v = []
    · rw [updateTokenEndpoint, if_pos hempty]
    · rw [updateTokenEndpoint, if_neg hempty, replaceRealmAll_none hv]

/-- C8: the realm rewrite is idempotent: rewriting an already rewritten
www-authenticate header again with the same original host changes
nothing, for any header value and any HTTP-valid host (one containing no
quote, newline or dollar character). -/
theorem updateTokenEndpoint_idem (v host : List Char)
    (h1 : ('"' ∉ host)) (h2 : ('\n' ∉ host)) (h3 : ('$' ∉ host)) :
    updateTokenEndpoint host (updateTokenEndpoint host v) =
      updateTokenEndpoint host v := by
  by_cases hv : v = []
  · subst hv
    simp [updateTokenEndpoint]
  · have hq : ('"' ∉ "https://".data ++ host ++ "/_token".data) := by
      simp only [List.mem_append]
      push_neg
      exact ⟨⟨by decide, h1⟩, by decide⟩
    have hn : ('\n' ∉ "https://".data ++ host ++ "/_token".data) := by
      simp only [List.mem_append]
      push_neg
      exact ⟨⟨by decide, h2⟩, by decide⟩
    have hw : updateTokenEndpoint host v =
        replaceRealmAll ("https://".data ++ host ++ "/_token".data) v := by
      rw [updateTokenEndpoint, if_neg hv]
    rw [hw]
    by_cases hvv : replaceRealmAll ("https://".data ++ host ++ "/_token".data) v = []
    · rw [updateTokenEndpoint, if_pos hvv]
    · rw [updateTokenEndpoint, if_neg hvv]
      exact replaceRealmAll_idem _ hq hn v.length v le_rfl

/-- C3: for a token request carrying a non-empty scope, the director
points the request URL and Host header at the discovered token endpoint
and rewrites only the first occurrence of the literal repository: in the
scope value, keeping the rest of the scope intact; a scope without that
substring is forwarded unchanged. -/
theorem tokenProxyDirector_scope_spec (te : EndpointUrl) ( pre : List Char)
    (r : TokenRequest) (s : List Char) :
    (queryGet "scope".data r.query = s → s ≠ [] →
      tokenProxyDirector te pre r =
        { scheme := te.scheme, urlHost := te.host, path := te.path,
          query := querySet "scope".data
            (replaceFirst "repository:".data
              ("repository:".data ++ pre ++ "/".data) s) r.query,
          hostHeader := te.host }) ∧
    (∀ a b, ¬ ("repository:".data <:+: a) → s = a ++ "repository:".data ++ b →
      replaceFirst "repository:".data ("repository:".data ++ pre ++ "/".data) s =
        a ++ "repository:".data ++ pre ++ "/".data ++ b) ∧
    (¬ ("repository:".data <:+: s) →
      replaceFirst "repository:".data ("repository:".data ++ pre ++ "/".data) s = s) := by
  refine ⟨?_, ?_, ?_⟩
  · intro hget hne
    simp only [tokenProxyDirector, hget]
    rw [if_neg hne]
  · intro a b ha hs
    subst hs
    have e : a ++ "repository:".data ++ pre ++ "/".data ++ b =
        a ++ ("repository:".data ++ pre ++ "/".data) ++ b := by
      simp [List.append_assoc]
    rw [e]
    exact replaceFirst_decomp repositoryLit_no_border ha (by decide)
  · intro hs
    exact replaceFirst_no_occurrence hs

/-- Witness for the registry path rewriter at concrete inputs, exercising
both a generic path and the bare /v2/ probe. -/
theorem rewriteRegistryV2URL_spec_witness :
    rewriteRegistryV2URL ⟨"gcr.io".data, "myorg".data⟩
      ⟨"http".data, [], "/v2/library/ubuntu/manifests/latest".data, "x=1".data,
        "proxy.example.org".data⟩ =
      { scheme := "https".data, urlHost := "gcr.io".data,
        path := "/v2/".data ++ "myorg".data ++ "/".data ++
          "library/ubuntu/manifests/latest".data,
        query := "x=1".data, hostHeader := "gcr.io".data } ∧
    rewriteRegistryV2URL ⟨"gcr.io".data, "myorg".data⟩
      ⟨"http".data, [], "/v2/".data, [], "proxy.example.org".data⟩ =
      { scheme := "https".data, urlHost := "gcr.io".data, path := "/v2/".data,
        query := ([] : List Char), hostHeader := "gcr.io".data } :=
  ⟨(rewriteRegistryV2URL_spec ⟨"gcr.io".data, "myorg".data⟩
      ⟨"http".data, [], "/v2/library/ubuntu/manifests/latest".data, "x=1".data,
        "proxy.example.org".data⟩ (by decide)).1
      "library/ubuntu/manifests/latest".data (by decide) (by decide),
    (rewriteRegistryV2URL_spec ⟨"gcr.io".data, "myorg".data⟩
      ⟨"http".data, [], "/v2/".data, [], "proxy.example.org".data⟩ (by decide)).2 rfl⟩

/-- Witness for the realm rewrite specification at concrete inputs,
exercising the empty header, a realm-bearing header, and a header with no
realm group. -/
theorem updateTokenEndpoint_spec_witness :
    updateTokenEndpoint "myproxy.example.org".data [] = [] ∧
    updateTokenEndpoint "myproxy.example.org".data
        "Bearer realm=\"https://auth.docker.io/token\",service=\"registry.docker.io\"".data =
      "Bearer ".data ++ realmLit ++
        ("https://".data ++ "myproxy.example.org".data ++ "/_token".data) ++
        '"' :: ",service=\"registry.docker.io\"".data ∧
    updateTokenEndpoint "myproxy.example.org".data "Basic abc".data = "Basic abc".data :=
  ⟨(updateTokenEndpoint_spec "myproxy.example.org".data [] (by decide)).1 rfl,
    (updateTokenEndpoint_spec "myproxy.example.org".data
        "Bearer realm=\"https://auth.docker.io/token\",service=\"registry.docker.io\"".data
        (by decide)).2.1
      "Bearer ".data "https://auth.docker.io/token".data
      ",service=\"registry.docker.io\"".data
      (by decide) (by decide) (by decide) (by decide) (by decide),
    (updateTokenEndpoint_spec "myproxy.example.org".data "Basic abc".data
        (by decide)).2.2 (by decide)⟩

/-- Witness for the token proxy scope rewriting at concrete inputs,
exercising the full director, the first-occurrence rewrite, and the
no-occurrence pass-through. -/
theorem tokenProxyDirector_scope_spec_witness :
    tokenProxyDirector ⟨"https".data, "auth.example.com".data, "/token".data⟩
        "myproject".data
        ⟨"http".data, [], "/_token".data,
          [("service".data, "reg".data), ("scope".data, "repository:foo/bar:pull".data)],
          "proxy.example.org".data⟩ =
      { scheme := "https".data, urlHost := "auth.example.com".data,
        path := "/token".data,
        query := querySet "scope".data
          (replaceFirst "repository:".data
            ("repository:".data ++ "myproject".data ++ "/".data)
            "repository:foo/bar:pull".data)
          [("service".data, "reg".data), ("scope".data, "repository:foo/bar:pull".data)],
        hostHeader := "auth.example.com".data } ∧
    replaceFirst "repository:".data
        ("repository:".data ++ "myproject".data ++ "/".data)
        "repository:foo/bar:pull".data =
      [] ++ "repository:".data ++ "myproject".data ++ "/".data ++ "foo/bar:pull".data ∧
    replaceFirst "repository:".data
        ("repository:".data ++ "myproject".data ++ "/".data) "pull".data = "pull".data :=
  ⟨(tokenProxyDirector_scope_spec ⟨"https".data, "auth.example.com".data, "/token".data⟩
      "myproject".data
      ⟨"http".data, [], "/_token".data,
        [("service".data, "reg".data), ("scope".data, "repository:foo/bar:pull".data)],
        "proxy.example.org".data⟩
      "repository:foo/bar:pull".data).1 (by decide) (by decide),
    (tokenProxyDirector_scope_spec ⟨"https".data, "auth.example.com".data, "/token".data⟩
      "myproject".data
      ⟨"http".data, [], "/_token".data,
        [("service".data, "reg".data), ("scope".data, "repository:foo/bar:pull".data)],
        "proxy.example.org".data⟩
      "repository:foo/bar:pull".data).2.1 [] "foo/bar:pull".data (by decide) (by decide),
    (tokenProxyDirector_scope_spec ⟨"https".data, "auth.example.com".data, "/token".data⟩
      "myproject".data
      ⟨"http".data, [], "/_token".data,
        [("service".data, "reg".data), ("scope".data, "repository:foo/bar:pull".data)],
        "proxy.example.org".data⟩
      "pull".data).2.2 (by decide)⟩

/-- Witness for the early return of the token director when no scope
parameter is present: the concrete request comes back unchanged, still
pointing at its original target rather than the token endpoint. -/
theorem tokenProxyDirector_no_scope_witness :
    tokenProxyDirector ⟨"https".data, "auth.example.com".data, "/token".data⟩
        "myproject".data
        ⟨"http".data, [], "/_token".data, [("service".data, "reg".data)],
          "proxy.example.org".data⟩ =
      ⟨"http".data, [], "/_token".data, [("service".data, "reg".data)],
        "proxy.example.org".data⟩ :=
  tokenProxyDirector_no_scope ⟨"https".data, "auth.example.com".data, "/token".data⟩
    "myproject".data
    ⟨"http".data, [], "/_token".data, [("service".data, "reg".data)],
      "proxy.example.org".data⟩ (by decide)

/-- Witness for the Authorization header invariant at concrete inputs,
exercising both a configured and an absent authenticator. -/
theorem registryRoundTrip_authorization_witness :
    (registryRoundTripPrepare (some "Basic Zm9v".data) "proxy.example.org".data
      ⟨[], "docker/20.10".data, "application/json".data⟩).authorization =
      "Basic Zm9v".data ∧
    (registryRoundTripPrepare none "proxy.example.org".data
      ⟨"Bearer xyz".data, "docker/20.10".data, "application/json".data⟩).authorization =
      (⟨"Bearer xyz".data, "docker/20.10".data, "application/json".data⟩ :
        ReqHeaders).authorization :=
  ⟨(registryRoundTrip_authorization (some "Basic Zm9v".data) "proxy.example.org".data
      ⟨[], "docker/20.10".data, "application/json".data⟩).1 "Basic Zm9v".data rfl,
    (registryRoundTrip_authorization none "proxy.example.org".data
      ⟨"Bearer xyz".data, "docker/20.10".data, "application/json".data⟩).2 rfl⟩

/-- Witness for token-endpoint discovery on a concrete challenge header. -/
theorem discoverTokenService_spec_witness :
    discoverTokenService
        "Bearer realm=\"https://auth.docker.io/token\",service=\"registry.docker.io\"".data =
      some "https://auth.docker.io/token".data :=
  (discoverTokenService_spec
      "Bearer realm=\"https://auth.docker.io/token\",service=\"registry.docker.io\"".data).2
    "Bearer ".data "https://auth.docker.io/token".data
    ",service=\"registry.docker.io\"".data (by decide)

/-- Witness for the refresh timer arithmetic at a concrete expiry. -/
theorem metadataRefreshTimer_spec_witness :
    metadataRefreshTimerNanos 7200 = (7200 - 300) * 1000000000 :=
  metadataRefreshTimer_spec.1 7200 (by norm_num) (by norm_num)

/-- Witness for the idempotence of the realm rewrite on a concrete
header and host. -/
theorem updateTokenEndpoint_idem_witness :
    updateTokenEndpoint "myproxy.example.org".data
        (updateTokenEndpoint "myproxy.example.org".data
          "Bearer realm=\"https://auth.docker.io/token\",service=\"registry.docker.io\"".data) =
      updateTokenEndpoint "myproxy.example.org".data
        "Bearer realm=\"https://auth.docker.io/token\",service=\"registry.docker.io\"".data :=
  updateTokenEndpoint_idem
    "Bearer realm=\"https://auth.docker.io/token\",service=\"registry.docker.io\"".data
    "myproxy.example.org".data (by decide) (by decide) (by decide)

/-- Witness for the conditional User-Agent decoration at concrete inputs,
exercising both the absent and the present case. -/
theorem registryRoundTrip_userAgent_witness :
    (registryRoundTripPrepare none "proxy.example.org".data
      ⟨[], [], "*/*".data⟩).userAgent = [] ∧
    (registryRoundTripPrepare none "proxy.example.org".data
      ⟨[], "docker/20.10".data, "*/*".data⟩).userAgent =
      "gcr-proxy/0.1 customDomain/".data ++ "proxy.example.org".data ++ " ".data ++
        (⟨[], "docker/20.10".data, "*/*".data⟩ : ReqHeaders).userAgent :=
  ⟨(registryRoundTrip_userAgent none "proxy.example.org".data
      ⟨[], [], "*/*".data⟩).1 rfl,
    (registryRoundTrip_userAgent none "proxy.example.org".data
      ⟨[], "docker/20.10".data, "*/*".data⟩).2 (by decide)⟩

/-- Witness for the early return of the token director when the scope
parameter is present with an empty value. -/
theorem tokenProxyDirector_empty_scope_witness :
    tokenProxyDirector ⟨"https".data, "auth.example.com".data, "/token".data⟩
        "myproject".data
        ⟨"http".data, [], "/_token".data,
          [("scope".data, []), ("service".data, "reg".data)], "proxy.example.org".data⟩ =
      ⟨"http".data, [], "/_token".data,
        [("scope".data, []), ("service".data, "reg".data)], "proxy.example.org".data⟩ :=
  tokenProxyDirector_empty_scope ⟨"https".data, "auth.example.com".data, "/token".data⟩
    "myproject".data
    ⟨"http".data, [], "/_token".data,
      [("scope".data, []), ("service".data, "reg".data)], "proxy.example.org".data⟩
    (by decide)
